import Mathlib

set_option maxRecDepth 100000

/-!
Verification development for the Poly Package Manager (ppm), a small
plugin package manager (`src/package_manager.py`).  The Python module is
shallowly embedded: the network (urllib) and the local plugin store
(the `~/plplugins` directory) are explicit values, `hashlib.sha256` is
implemented executably on byte lists, and every `tab.add` output line is
modelled by a constructor of an inductive `Msg` type (one constructor per
distinct message of the source, with the data the message interpolates).
-/

namespace PPM

/-- Byte strings (Python `bytes`): lists of naturals, each intended `< 256`. -/
abbrev Bytes := List Nat

/-! ## SHA-256 (`hashlib.sha256(content).hexdigest()`)

Executable implementation of FIPS 180-4 SHA-256 over byte lists, with
32-bit words represented as naturals reduced mod `2 ^ 32`. -/

/-- Truncate to a 32-bit word. -/
def w32 (n : Nat) : Nat := n % 4294967296

/-- Right rotation of a 32-bit word by `n` bits (`0 < n < 32`). -/
def rotr32 (x n : Nat) : Nat := (x >>> n) + (x % 2 ^ n) * 2 ^ (32 - n)

/-- Bitwise complement of a 32-bit word. -/
def not32 (x : Nat) : Nat := 4294967295 ^^^ x

def chF (e f g : Nat) : Nat := (e &&& f) ^^^ (not32 e &&& g)

def majF (a b c : Nat) : Nat := (a &&& b) ^^^ (a &&& c) ^^^ (b &&& c)

def bigSigma0 (x : Nat) : Nat := rotr32 x 2 ^^^ rotr32 x 13 ^^^ rotr32 x 22

def bigSigma1 (x : Nat) : Nat := rotr32 x 6 ^^^ rotr32 x 11 ^^^ rotr32 x 25

def smallSigma0 (x : Nat) : Nat := rotr32 x 7 ^^^ rotr32 x 18 ^^^ (x >>> 3)

def smallSigma1 (x : Nat) : Nat := rotr32 x 17 ^^^ rotr32 x 19 ^^^ (x >>> 10)

/-- The 64 SHA-256 round constants (decimal). -/
def shaK : List Nat :=
  [1116352408, 1899447441, 3049323471, 3921009573, 961987163,
   1508970993, 2453635748, 2870763221, 3624381080, 310598401,
   607225278, 1426881987, 1925078388, 2162078206, 2614888103,
   3248222580, 3835390401, 4022224774, 264347078, 604807628,
   770255983, 1249150122, 1555081692, 1996064986, 2554220882,
   2821834349, 2952996808, 3210313671, 3336571891, 3584528711,
   113926993, 338241895, 666307205, 773529912, 1294757372,
   1396182291, 1695183700, 1986661051, 2177026350, 2456956037,
   2730485921, 2820302411, 3259730800, 3345764771, 3516065817,
   3600352804, 4094571909, 275423344, 430227734, 506948616,
   659060556, 883997877, 958139571, 1322822218, 1537002063,
   1747873779, 1955562222, 2024104815, 2227730452, 2361852424,
   2428436474, 2756734187, 3204031479, 3329325298]

/-- Working state of the compression function: eight 32-bit words. -/
structure H8 where
  a : Nat
  b : Nat
  c : Nat
  d : Nat
  e : Nat
  f : Nat
  g : Nat
  h : Nat
deriving Repr, DecidableEq

/-- Initial hash value of SHA-256 (decimal). -/
def shaH0 : H8 :=
  ⟨1779033703, 3144134277, 1013904242, 2773480762,
   1359893119, 2600822924, 528734635, 1541459225⟩

/-- One round of the SHA-256 compression function. -/
def shaRound (s : H8) (k w : Nat) : H8 :=
  let t1 := w32 (s.h + bigSigma1 s.e + chF s.e s.f s.g + k + w)
  let t2 := w32 (bigSigma0 s.a + majF s.a s.b s.c)
  ⟨w32 (t1 + t2), s.a, s.b, s.c, w32 (s.d + t1), s.e, s.f, s.g⟩

/-- Message-schedule extension, on the reversed schedule (most recent word
first): prepends `n` further words. -/
def extendRevW : Nat → List Nat → List Nat
  | 0, acc => acc
  | n + 1, acc =>
      let nw := w32 (smallSigma1 (acc.getD 1 0) + acc.getD 6 0 +
                     smallSigma0 (acc.getD 14 0) + acc.getD 15 0)
      extendRevW n (nw :: acc)

/-- Process one 16-word block. -/
def compressBlock (s0 : H8) (block : List Nat) : H8 :=
  let ws := (extendRevW 48 block.reverse).reverse
  let s := (shaK.zip ws).foldl (fun st kw => shaRound st kw.1 kw.2) s0
  ⟨w32 (s0.a + s.a), w32 (s0.b + s.b), w32 (s0.c + s.c), w32 (s0.d + s.d),
   w32 (s0.e + s.e), w32 (s0.f + s.f), w32 (s0.g + s.g), w32 (s0.h + s.h)⟩

/-- Big-endian 4-byte grouping of a byte list into 32-bit words. -/
def bytesToWords : List Nat → List Nat
  | b0 :: b1 :: b2 :: b3 :: rest =>
      (((b0 * 256 + b1) * 256 + b2) * 256 + b3) :: bytesToWords rest
  | _ => []

/-- Split a word list into 16-word blocks (`fuel` bounds the recursion;
callers pass the list length). -/
def chunk16 : Nat → List Nat → List (List Nat)
  | 0, _ => []
  | _, [] => []
  | fuel + 1, ws => ws.take 16 :: chunk16 fuel (ws.drop 16)

/-- The 8-byte big-endian encoding of the 64-bit message bit length. -/
def lenBytes (n : Nat) : Bytes :=
  [(n >>> 56) % 256, (n >>> 48) % 256, (n >>> 40) % 256, (n >>> 32) % 256,
   (n >>> 24) % 256, (n >>> 16) % 256, (n >>> 8) % 256, n % 256]

/-- SHA-256 padding: append `0x80`, zeros to 56 mod 64, then the bit length. -/
def padMessage (msg : Bytes) : Bytes :=
  msg ++ [128] ++ List.replicate ((119 - msg.length % 64) % 64) 0 ++ lenBytes (8 * msg.length)

/-- The eight 32-bit words of the SHA-256 digest of `msg`. -/
def sha256words (msg : Bytes) : H8 :=
  let ws := bytesToWords (padMessage msg)
  (chunk16 ws.length ws).foldl compressBlock shaH0

/-- Lowercase hexadecimal digit. -/
def hexChar (n : Nat) : Char :=
  if n < 10 then Char.ofNat (48 + n) else Char.ofNat (87 + n)

/-- Lowercase 8-digit hexadecimal rendering of a 32-bit word. -/
def wordHex (w : Nat) : List Char :=
  [hexChar ((w >>> 28) % 16), hexChar ((w >>> 24) % 16), hexChar ((w >>> 20) % 16),
   hexChar ((w >>> 16) % 16), hexChar ((w >>> 12) % 16), hexChar ((w >>> 8) % 16),
   hexChar ((w >>> 4) % 16), hexChar (w % 16)]

/-- `hashlib.sha256(msg).hexdigest()`: the lowercase hex digest string. -/
def sha256_hexdigest (msg : Bytes) : String :=
  let s := sha256words msg
  String.mk (List.flatten [wordHex s.a, wordHex s.b, wordHex s.c, wordHex s.d,
                           wordHex s.e, wordHex s.f, wordHex s.g, wordHex s.h])

/-- The hex digest of the empty byte string (standard SHA-256 test vector). -/
def emptyDigest : String := "e3b0c44298fc1c149afbf4c8996fb92427ae41e4649b934ca495991b7852b855"

/-! ## Python string and path helpers used by the module -/

/-- `os.path.basename` (POSIX): everything after the last `/`.
Accumulator is reset at each separator. -/
def basenameAux (acc : List Char) : List Char → List Char
  | [] => acc
  | c :: cs => if c = '/' then basenameAux [] cs else basenameAux (acc ++ [c]) cs

/-- `os.path.basename(p)` for POSIX paths. -/
def basename (p : String) : String := String.mk (basenameAux [] p.data)

/-- Index of the last occurrence of `c`, if any. -/
def lastIdxOf (c : Char) : List Char → Option Nat
  | [] => none
  | x :: xs =>
      match lastIdxOf c xs with
      | some i => some (i + 1)
      | none => if x = c then some 0 else none

/-- `os.path.splitext(s)[0]` for a plain filename (no `/`): cut at the last
dot, except that a filename consisting only of leading dots before that dot
(for example `".py"`) has no extension and is returned whole, exactly as in
CPython `genericpath._splitext`. -/
def splitextStem (s : String) : String :=
  match lastIdxOf '.' s.data with
  | none => s
  | some i => if (s.data.take i).any (fun c => c ≠ '.') then String.mk (s.data.take i) else s

/-- ASCII lowercasing of one character; models Python `str.lower` on the
ASCII strings this module manipulates. -/
def lowerChar (c : Char) : Char :=
  if 'A' ≤ c ∧ c ≤ 'Z' then Char.ofNat (c.toNat + 32) else c

/-- ASCII lowercasing of a string (`str.lower`). -/
def lowerStr (s : String) : String := String.mk (s.data.map lowerChar)

/-- Boolean list-prefix test. -/
def isPrefixB : List Char → List Char → Bool
  | [], _ => true
  | _ :: _, [] => false
  | a :: as, b :: bs => a = b && isPrefixB as bs

/-- Python substring containment `needle in hay` on the underlying characters. -/
def listSub (n : List Char) : List Char → Bool
  | [] => n.isEmpty
  | c :: cs => isPrefixB n (c :: cs) || listSub n cs

/-- Python `needle in hay` for strings. -/
def strContains (needle hay : String) : Bool := listSub needle.data hay.data

/-- Python `s.endswith(suf)`. -/
def strEndsWith (s suf : String) : Bool := isPrefixB suf.data.reverse s.data.reverse

/-- Worker for `pySplit`: `cur` holds the characters of the current token in
reverse. -/
def pySplitAux : List Char → List Char → List String
  | cur, [] => if cur.isEmpty then [] else [String.mk cur.reverse]
  | cur, c :: cs =>
      if c.isWhitespace then
        if cur.isEmpty then pySplitAux [] cs
        else String.mk cur.reverse :: pySplitAux [] cs
      else pySplitAux (c :: cur) cs

/-- Python `args.split()`: split on whitespace runs, never yielding an
empty token. -/
def pySplit (s : String) : List String := pySplitAux [] s.data

/-! ## Repository constants (`package_manager.py` lines 15–20) -/

def REPO_URL : String :=
  "https://raw.githubusercontent.com/mre31/ppm-poly-package-manager/master/"

def MANIFEST_FILE : String := "plugins.json"

/-- `get_plugins_dir()`; `os.path.expanduser` is modelled by the literal
home marker, so the store directory is the fixed path below. -/
def get_plugins_dir : String := "~/plplugins"

/-- `os.path.join(dir, rel)` for a relative (slash-free or relative) second
component, the only way the module joins paths. -/
def joinPath (dir rel : String) : String := dir ++ "/" ++ rel

/-! ## Data model

A manifest record (`plugins[name]` in `plugins.json`), with every field
optional because the module reads each one with `dict.get`. -/

structure PluginRecord where
  file : Option String
  sha256 : Option String
  description : Option String
  version : Option String
deriving Repr, DecidableEq

/-- The `plugins` mapping of a parsed manifest, as an association list in
document order (Python dicts preserve insertion order). -/
abbrev Manifest := List (String × PluginRecord)

/-- Result of fetching and parsing the manifest URL: `netError` stands for
`HTTPError`/`URLError` from `urlopen`, `parseError` for
`json.JSONDecodeError`, and `ok` carries the `plugins` mapping of the
parsed document (`manifest.get("plugins", {})`). -/
inductive FetchResult where
  | ok (m : Manifest)
  | netError
  | parseError
deriving Repr

/-- The remote repository as seen by one command invocation: the manifest
fetch outcome and, per full URL, the downloaded bytes (`none` models
`HTTPError`/`URLError` for that URL). -/
structure Env where
  fetchManifest : FetchResult
  download : String → Option Bytes

/-- Contents of the Local Plugin Store directory: filename to bytes, in
directory-listing order. -/
abbrev FileMap := List (String × Bytes)

/-- The Local Plugin Store: `none` when the `~/plplugins` directory does not
exist, otherwise its file listing.  Names are the path components directly
inside the directory. -/
abbrev Store := Option FileMap

/-- `open(path, "wb")` then `write`: replace the first binding or append. -/
def writeFs : FileMap → String → Bytes → FileMap
  | [], f, b => [(f, b)]
  | (g, c) :: rest, f, b =>
      if g = f then (f, b) :: rest else (g, c) :: writeFs rest f b

/-- `os.makedirs(plugins_dir, exist_ok=True)`. -/
def makedirsStore (st : Store) : Store := some (st.getD [])

/-- Write a file into the store (the directory exists afterwards). -/
def storeWrite (st : Store) (f : String) (b : Bytes) : Store :=
  some (writeFs (st.getD []) f b)

/-- `os.remove(join(dir, f))`: delete the (unique) entry named `f`. -/
def storeErase (st : Store) (f : String) : Store :=
  match st with
  | none => none
  | some l => some (l.eraseP (fun p => p.1 == f))

/-- File contents at name `f`, if the store directory and the file exist. -/
def storeLookup (st : Store) (f : String) : Option Bytes :=
  match st with
  | none => none
  | some l => l.lookup f

/-- A filename at which `open(..., "wb")` / `os.remove` can act on a plain
file: `""`, `"."` and `".."` all resolve to existing directories, where
those calls raise `IsADirectoryError`/`OSError` instead. -/
def writableName (f : String) : Bool := !(f == "" || f == "." || f == "..")

/-- `os.path.exists(os.path.join(plugins_dir, f))`: with the store directory
absent nothing under it resolves; with it present, `""`, `"."` and `".."`
name directories that exist, and any other name exists iff the store holds
a file of that name. -/
def pathExistsIn (st : Store) (f : String) : Bool :=
  match st with
  | none => false
  | some l => if f == "" || f == "." || f == ".." then true else (l.lookup f).isSome

/-! ## Observable output

One constructor per distinct `tab.add` message of the source, with the
data the message interpolates carried as arguments.  The three-line hash
mismatch report and the fixed multi-line help text are each one
constructor, and the fetch/parse error lines that differ between callers
only by leading indentation (install vs list/search) are identified. -/

inductive Msg where
  | usageInstall
  | fetchingManifest
  | errFetchManifest
  | errParseManifest
  | errNotFound (name : String)
  | errMissingFields (name : String)
  | downloading (name url : String)
  | errDownload
  | hashMismatch (expected actual : String)
  | hashOk
  | installed (name path : String)
  | restartInstall
  | errWrite
  | helpText
  | installedHeader
  | noPluginsInstalledList
  | installedItem (name : String)
  | availableHeader
  | noPluginsInRepo
  | availableItem (name desc : String)
  | usageUninstall
  | warnNotInManifest (name : String)
  | errNotInstalled (name : String)
  | uninstalled (name : String)
  | restartUninstall
  | errRemove
  | usageSearch
  | searching (kw : String)
  | noMatches
  | searchMatch (name ver desc : String)
  | usageUpdate
  | updatingAll
  | noPluginsInstalledUpd
  | noPluginsToUpdate
  | updatingItem (name : String)
  | updatingOne (name : String)
  | unknownCommand (cmd : String)
deriving Repr, DecidableEq

/-- Network operations a command performs, in order. -/
inductive NetEvent where
  | fetch
  | download (url : String)
deriving Repr, DecidableEq

def isFetchEv : NetEvent → Bool
  | .fetch => true
  | _ => false

def isDownloadEv : NetEvent → Bool
  | .download _ => true
  | _ => false

def countFetch (l : List NetEvent) : Nat := l.countP isFetchEv

def countDownload (l : List NetEvent) : Nat := l.countP isDownloadEv

/-- Result of one operation: output lines, resulting store, network events. -/
structure R where
  out : List Msg
  st : Store
  net : List NetEvent
deriving Repr, DecidableEq

/-- Result of an operation that may escape with an unhandled Python
exception (`.exn` records the network events performed before the raise). -/
inductive PyResult where
  | ok (r : R)
  | exn (net : List NetEvent)
deriving Repr, DecidableEq

def PyResult.isOk : PyResult → Bool
  | .ok _ => true
  | .exn _ => false

def PyResult.netOf : PyResult → List NetEvent
  | .ok r => r.net
  | .exn n => n

/-! ## The operations (`package_manager.py` lines 22–276) -/

/-- Outcome of the store-independent phase of `ppm_install` (lines 26–75,
which never read or write the store): either an early return
with its output and network events, or a verified payload to write. -/
inductive InstallPlan where
  | fail (out : List Msg) (net : List NetEvent)
  | write (f : String) (content : Bytes)
deriving Repr

/-- Lines 26–75 of `ppm_install`: argument check, manifest fetch and parse,
record lookup, field validation (Python falsiness rejects a missing *or
empty* `file`/`sha256`, line 53), download, and hash verification.  A
`.write f content` outcome means `sha256_hexdigest content` equals the
declared digest exactly (string comparison, line 69). -/
def installPlan (env : Env) (name : String) : InstallPlan :=
  if name = "" then .fail [.usageInstall] [] else
  match env.fetchManifest with
  | .netError => .fail [.fetchingManifest, .errFetchManifest] [.fetch]
  | .parseError => .fail [.fetchingManifest, .errParseManifest] [.fetch]
  | .ok m =>
    match List.lookup name m with
    | none => .fail [.fetchingManifest, .errNotFound name] [.fetch]
    | some info =>
      match info.file, info.sha256 with
      | some f, some h =>
        if f = "" ∨ h = "" then
          .fail [.fetchingManifest, .errMissingFields name] [.fetch]
        else
          match env.download (REPO_URL ++ f) with
          | none =>
              .fail [.fetchingManifest, .downloading name (REPO_URL ++ f), .errDownload]
                [.fetch, .download (REPO_URL ++ f)]
          | some content =>
              if sha256_hexdigest content = h then .write f content
              else
                .fail [.fetchingManifest, .downloading name (REPO_URL ++ f),
                       .hashMismatch h (sha256_hexdigest content)]
                  [.fetch, .download (REPO_URL ++ f)]
      | _, _ => .fail [.fetchingManifest, .errMissingFields name] [.fetch]

/-- `ppm_install(tab, plugin_name)` (lines 22–89).  A missing argument is
passed as `""` by the dispatcher; `if not plugin_name` treats `None` and
`""` alike.  After a `.write` plan: destination basename (line 79),
`os.makedirs` (line 81), then the write, modelling `open(path, "wb")` as
failing (caught `IOError`, line 88) exactly when the destination name
resolves to a directory. -/
def ppm_install (env : Env) (st : Store) (name : String) : R :=
  match installPlan env name with
  | .fail out net => ⟨out, st, net⟩
  | .write f content =>
      let dest := basename f
      let st1 := makedirsStore st
      if writableName dest then
        ⟨[.fetchingManifest, .downloading name (REPO_URL ++ f), .hashOk,
          .installed name (joinPath get_plugins_dir dest), .restartInstall],
         storeWrite st1 dest content, [.fetch, .download (REPO_URL ++ f)]⟩
      else
        ⟨[.fetchingManifest, .downloading name (REPO_URL ++ f), .hashOk, .errWrite],
         st1, [.fetch, .download (REPO_URL ++ f)]⟩

/-- `ppm_help(tab)` (lines 91–103): the fixed help text. -/
def ppm_help : List Msg := [.helpText]

/-- The installed-plugin names produced by the directory scan shared by
`ppm_list -i` (lines 113–115) and `ppm_update --all` (line 222): stems of
the `.py` entries of the store listing. -/
def installedStems (files : FileMap) : List String :=
  ((files.map Prod.fst).filter (fun f => strEndsWith f ".py")).map splitextStem

/-- `ppm_list(tab, installed_only)` (lines 105–136). -/
def ppm_list (env : Env) (st : Store) (installed_only : Bool) : R :=
  if installed_only then
    match st with
    | none => ⟨[.installedHeader, .noPluginsInstalledList], st, []⟩
    | some files =>
        ⟨.installedHeader :: (installedStems files).map (fun n => .installedItem n), st, []⟩
  else
    match env.fetchManifest with
    | .netError => ⟨[.availableHeader, .errFetchManifest], st, [.fetch]⟩
    | .parseError => ⟨[.availableHeader, .errParseManifest], st, [.fetch]⟩
    | .ok m =>
        if m.isEmpty then ⟨[.availableHeader, .noPluginsInRepo], st, [.fetch]⟩
        else
          ⟨.availableHeader ::
             m.map (fun p => .availableItem p.1 (p.2.description.getD "No description")),
           st, [.fetch]⟩

/-- Filename resolution of `ppm_uninstall` (lines 146–162): manifest first,
heuristic `name + ".py"` when the fetch or parse fails or the name is not in
the manifest (with a warning in the latter case).  `none` models the
unhandled `TypeError` raised by `os.path.basename(None)` when the record
has no `file` field. -/
def un_resolve (env : Env) (name : String) : Option (List Msg × String) :=
  match env.fetchManifest with
  | .netError => some ([], name ++ ".py")
  | .parseError => some ([], name ++ ".py")
  | .ok m =>
    match List.lookup name m with
    | none => some ([.warnNotInManifest name], name ++ ".py")
    | some info =>
      match info.file with
      | none => none
      | some f => some ([], basename f)

/-- The removal tail of `ppm_uninstall` (lines 164–175): existence check,
then `os.remove` (which raises a caught `OSError` when the resolved name is
a directory). -/
def uninstallTail (st : Store) (name fname : String) : List Msg × Store :=
  if pathExistsIn st fname then
    if writableName fname then ([.uninstalled name, .restartUninstall], storeErase st fname)
    else ([.errRemove], st)
  else ([.errNotInstalled name], st)

/-- `ppm_uninstall(tab, plugin_name)` (lines 138–175). -/
def ppm_uninstall (env : Env) (st : Store) (name : String) : PyResult :=
  if name = "" then .ok ⟨[.usageUninstall], st, []⟩ else
  match un_resolve env name with
  | none => .exn [.fetch]
  | some (warns, fname) =>
      let t := uninstallTail st name fname
      .ok ⟨warns ++ t.1, t.2, [.fetch]⟩

/-- The match predicate of `ppm_search` (line 199). -/
def searchHit (kw : String) (name : String) (info : PluginRecord) : Bool :=
  strContains (lowerStr kw) (lowerStr name) ||
  strContains (lowerStr kw) (lowerStr (info.description.getD ""))

/-- `ppm_search(tab, keyword)` (lines 177–207). -/
def ppm_search (env : Env) (st : Store) (kw : String) : R :=
  if kw = "" then ⟨[.usageSearch], st, []⟩ else
  match env.fetchManifest with
  | .netError => ⟨[.searching kw, .errFetchManifest], st, [.fetch]⟩
  | .parseError => ⟨[.searching kw, .errParseManifest], st, [.fetch]⟩
  | .ok m =>
      let hits := m.filter (fun p => searchHit kw p.1 p.2)
      if hits.isEmpty then ⟨[.searching kw, .noMatches], st, [.fetch]⟩
      else
        ⟨.searching kw ::
           hits.map (fun p =>
             .searchMatch p.1 (p.2.version.getD "N/A") (p.2.description.getD "No description")),
         st, [.fetch]⟩

/-- The `--all` loop of `ppm_update` (lines 227–229): re-run install for
each name in turn, threading the store. -/
def updateEach (env : Env) (st : Store) : List String → List Msg × Store × List NetEvent
  | [] => ([], st, [])
  | p :: ps =>
      let r := ppm_install env st p
      let rest := updateEach env r.st ps
      (.updatingItem p :: r.out ++ rest.1, rest.2.1, r.net ++ rest.2.2)

/-- `ppm_update(tab, plugin_name)` (lines 209–232). -/
def ppm_update (env : Env) (st : Store) (name : String) : R :=
  if name = "" then ⟨[.usageUpdate], st, []⟩ else
  if name = "--all" then
    match st with
    | none => ⟨[.updatingAll, .noPluginsInstalledUpd], st, []⟩
    | some files =>
        let stems := installedStems files
        if stems.isEmpty then ⟨[.updatingAll, .noPluginsToUpdate], st, []⟩
        else
          let r := updateEach env (some files) stems
          ⟨.updatingAll :: r.1, r.2.1, r.2.2⟩
  else
    let r := ppm_install env st name
    ⟨.updatingOne name :: r.out, r.st, r.net⟩

/-- `ppm_command(tab, args)` (lines 234–266): tokenize, lowercase the
subcommand, dispatch.  A missing positional argument is passed as `""`
(`parts[1] if len(parts) > 1 else None`, and every callee treats `None`
and `""` alike through Python falsiness; `pySplit` never yields `""`). -/
def ppm_command (env : Env) (st : Store) (args : String) : PyResult :=
  match pySplit args with
  | [] => .ok ⟨ppm_help, st, []⟩
  | cmd :: rest =>
    let sub := lowerStr cmd
    if sub = "help" then .ok ⟨ppm_help, st, []⟩
    else if sub = "install" then .ok (ppm_install env st (rest.getD 0 ""))
    else if sub = "uninstall" then ppm_uninstall env st (rest.getD 0 "")
    else if sub = "list" then .ok (ppm_list env st (rest.getD 0 "" == "-i"))
    else if sub = "search" then .ok (ppm_search env st (rest.getD 0 ""))
    else if sub = "update" then .ok (ppm_update env st (rest.getD 0 ""))
    else .ok ⟨.unknownCommand sub :: ppm_help, st, []⟩

/-- Number of installed plugins the `--all` scan would find. -/
def numInstalled : Store → Nat
  | none => 0
  | some files => (installedStems files).length

/-- Whether the dispatcher routes `args` to the bulk `update --all` path. -/
def dispatchesUpdateAll (args : String) : Bool :=
  match pySplit args with
  | [] => false
  | cmd :: rest => lowerStr cmd == "update" && rest.getD 0 "" == "--all"

/-! ## Concrete repositories and stores used by witnesses and
counterexamples -/

/-- Modelled from the spec: the case-insensitive hex comparison the spec
ascribes to the Integrity Verifier (`compares it (case-insensitively on hex
encoding)`), to be compared with the exact string comparison the code
performs. -/
def specCaseInsensitiveEq (a b : String) : Bool := lowerStr a == lowerStr b

/-- `emptyDigest` with the hex digits uppercased. -/
def upperDigest : String :=
  "E3B0C44298FC1C149AFBF4C8996FB92427AE41E4649B934CA495991B7852B855"

/-- A repository whose only plugin downloads to the empty byte string with
the matching (lowercase) digest. -/
def recW : PluginRecord := ⟨some "sub/foo.py", some emptyDigest, some "a foo plugin", some "1.0"⟩

def envW : Env :=
  ⟨.ok [("foo", recW)], fun u => if u = REPO_URL ++ "sub/foo.py" then some [] else none⟩

/-- A repository whose manifest declares a wrong digest for its plugin. -/
def recBad : PluginRecord := ⟨some "foo.py", some "00", none, none⟩

def envBad : Env :=
  ⟨.ok [("foo", recBad)], fun u => if u = REPO_URL ++ "foo.py" then some [] else none⟩

/-- A repository whose manifest declares the digest in uppercase hex. -/
def recUpper : PluginRecord := ⟨some "foo.py", some upperDigest, none, none⟩

def envUpper : Env :=
  ⟨.ok [("foo", recUpper)], fun u => if u = REPO_URL ++ "foo.py" then some [] else none⟩

/-- A repository whose plugin record carries a directory-traversal path. -/
def recTrav : PluginRecord := ⟨some "../../x.py", some emptyDigest, none, none⟩

def envTrav : Env :=
  ⟨.ok [("foo", recTrav)], fun u => if u = REPO_URL ++ "../../x.py" then some [] else none⟩

/-- A repository whose plugin record stores its file in a subdirectory. -/
def rec4 : PluginRecord := ⟨some "dir/foo.py", some "00", none, none⟩

def env4 : Env := ⟨.ok [("foo", rec4)], fun _ => none⟩

/-- A repository whose plugin record lacks the `file` field. -/
def rec9 : PluginRecord := ⟨none, some "00", none, none⟩

def env9 : Env := ⟨.ok [("foo", rec9)], fun _ => none⟩

/-- Scenario C of the spec: one entry named `calculator` described as
`advanced calculator`. -/
def recC8 : PluginRecord :=
  ⟨some "calculator.py", some emptyDigest, some "advanced calculator", some "1.2"⟩

def envC8 : Env := ⟨.ok [("calculator", recC8)], fun _ => none⟩

/-- An unreachable repository. -/
def envN : Env := ⟨.netError, fun _ => none⟩

/-- A store holding two installed plugins. -/
def st2 : Store := some [("a.py", []), ("b.py", [])]

/-! ## SHA-256 sanity check -/

theorem sha256_hexdigest_nil : sha256_hexdigest [] = emptyDigest := by decide

/-! ## Store lemmas -/

theorem storeLookup_makedirs (st : Store) (f : String) :
    storeLookup (makedirsStore st) f = storeLookup st f := by
  cases st <;> simp [makedirsStore, storeLookup]

theorem writeFs_lookup_self (l : FileMap) (f : String) (b : Bytes) :
    List.lookup f (writeFs l f b) = some b := by
  induction l with
  | nil => simp [writeFs, List.lookup]
  | cons p rest ih =>
      obtain ⟨g, c⟩ := p
      by_cases h : g = f
      · subst h; simp [writeFs, List.lookup]
      · have hfg : (f == g) = false := beq_eq_false_iff_ne.mpr (fun e => h e.symm)
        simp [writeFs, h, List.lookup, hfg, ih]

theorem writeFs_lookup_ne (l : FileMap) (f : String) (b : Bytes) (g : String)
    (h : g ≠ f) : List.lookup g (writeFs l f b) = List.lookup g l := by
  have hgf : (g == f) = false := beq_eq_false_iff_ne.mpr h
  induction l with
  | nil => simp [writeFs, List.lookup, hgf]
  | cons p rest ih =>
      obtain ⟨k, c⟩ := p
      by_cases hk : k = f
      · subst hk; simp [writeFs, List.lookup, hgf]
      · by_cases hg : g = k
        · subst hg; simp [writeFs, hk, List.lookup]
        · have hgk : (g == k) = false := beq_eq_false_iff_ne.mpr hg
          simp [writeFs, hk, List.lookup, hgk, ih]

theorem writeFs_idem (l : FileMap) (f : String) (b : Bytes) :
    writeFs (writeFs l f b) f b = writeFs l f b := by
  induction l with
  | nil => simp [writeFs]
  | cons p rest ih =>
      obtain ⟨k, c⟩ := p
      by_cases hk : k = f <;> simp [writeFs, hk, ih]

theorem storeWrite_lookup_self (st : Store) (f : String) (b : Bytes) :
    storeLookup (storeWrite st f b) f = some b := by
  simp [storeWrite, storeLookup, writeFs_lookup_self]

theorem storeWrite_lookup_ne (st : Store) (f : String) (b : Bytes) (g : String)
    (h : g ≠ f) : storeLookup (storeWrite st f b) g = storeLookup st g := by
  cases st <;> simp [storeWrite, storeLookup, writeFs_lookup_ne _ _ _ _ h]

/-! ## Path lemmas -/

theorem basenameAux_no_slash (l : List Char) :
    ∀ acc, '/' ∉ acc → '/' ∉ basenameAux acc l := by
  induction l with
  | nil => intro acc hacc; simpa [basenameAux] using hacc
  | cons c cs ih =>
      intro acc hacc
      by_cases hc : c = '/'
      · simpa [basenameAux, hc] using ih [] (by simp)
      · simpa [basenameAux, hc] using ih (acc ++ [c]) (by simp [hacc, Ne.symm hc])

theorem basename_no_slash (s : String) : '/' ∉ (basename s).data := by
  simpa [basename] using basenameAux_no_slash s.data [] (by simp)

/-! ## `installPlan` inversion and evaluation lemmas -/

theorem installPlan_write_inv (env : Env) (name f : String) (content : Bytes)
    (h : installPlan env name = .write f content) :
    name ≠ "" ∧
    ∃ m info hx, env.fetchManifest = .ok m ∧ List.lookup name m = some info ∧
      info.file = some f ∧ info.sha256 = some hx ∧ f ≠ "" ∧ hx ≠ "" ∧
      env.download (REPO_URL ++ f) = some content ∧
      sha256_hexdigest content = hx := by
  unfold installPlan at h
  repeat' split at h
  any_goals exact InstallPlan.noConfusion h
  injection h with h1 h2
  subst h1; subst h2
  exact ⟨by assumption, _, _, _, by assumption, by assumption, by assumption,
    by assumption,
    by intro hc; exact absurd (Or.inl hc) (by assumption),
    by intro hc; exact absurd (Or.inr hc) (by assumption),
    by assumption, by assumption⟩

theorem installPlan_fail_shape (env : Env) (name : String) (out : List Msg)
    (net : List NetEvent) (h : installPlan env name = .fail out net) :
    ((∀ n p, Msg.installed n p ∉ out) ∧ (∀ n, Msg.updatingItem n ∉ out) ∧
     (∀ n, Msg.installedItem n ∉ out) ∧ Msg.noPluginsInstalledList ∉ out) ∧
    (net = [] ∨ net = [.fetch] ∨ ∃ u, net = [.fetch, .download u]) := by
  unfold installPlan at h
  repeat' split at h
  any_goals exact InstallPlan.noConfusion h
  all_goals injection h with h1 h2
  all_goals subst h1
  all_goals subst h2
  all_goals refine ⟨by simp, ?_⟩
  all_goals simp

theorem installPlan_eq_write (env : Env) (name : String) (m : Manifest)
    (info : PluginRecord) (f hx : String) (content : Bytes)
    (hn : name ≠ "")
    (hm : env.fetchManifest = .ok m) (hl : List.lookup name m = some info)
    (hf : info.file = some f) (hs : info.sha256 = some hx)
    (hfe : f ≠ "") (hxe : hx ≠ "")
    (hd : env.download (REPO_URL ++ f) = some content)
    (hh : sha256_hexdigest content = hx) :
    installPlan env name = .write f content := by
  unfold installPlan
  simp [hn, hm, hl, hf, hs, hfe, hxe, hd, hh]

theorem ppm_install_fail (env : Env) (st : Store) (name : String)
    (out : List Msg) (net : List NetEvent) (h : installPlan env name = .fail out net) :
    ppm_install env st name = ⟨out, st, net⟩ := by
  unfold ppm_install; rw [h]

theorem ppm_install_write_writable (env : Env) (st : Store) (name f : String)
    (content : Bytes) (h : installPlan env name = .write f content)
    (hw : writableName (basename f) = true) :
    ppm_install env st name =
      ⟨[.fetchingManifest, .downloading name (REPO_URL ++ f), .hashOk,
        .installed name (joinPath get_plugins_dir (basename f)), .restartInstall],
       storeWrite (makedirsStore st) (basename f) content,
       [.fetch, .download (REPO_URL ++ f)]⟩ := by
  unfold ppm_install; rw [h]; simp [hw]

theorem ppm_install_write_unwritable (env : Env) (st : Store) (name f : String)
    (content : Bytes) (h : installPlan env name = .write f content)
    (hw : writableName (basename f) = false) :
    ppm_install env st name =
      ⟨[.fetchingManifest, .downloading name (REPO_URL ++ f), .hashOk, .errWrite],
       makedirsStore st, [.fetch, .download (REPO_URL ++ f)]⟩ := by
  unfold ppm_install; rw [h]; simp [hw]

theorem updatingItem_not_mem_install (env : Env) (st : Store) (name n : String) :
    Msg.updatingItem n ∉ (ppm_install env st name).out := by
  cases h : installPlan env name with
  | fail out net =>
      rw [ppm_install_fail env st name out net h]
      exact (installPlan_fail_shape env name out net h).1.2.1 n
  | write f content =>
      cases hw : writableName (basename f)
      · rw [ppm_install_write_unwritable env st name f content h hw]; simp
      · rw [ppm_install_write_writable env st name f content h hw]; simp

theorem install_net_bound (env : Env) (st : Store) (name : String) :
    countFetch (ppm_install env st name).net ≤ 1 ∧
    countDownload (ppm_install env st name).net ≤ 1 := by
  cases h : installPlan env name with
  | fail out net =>
      rw [ppm_install_fail env st name out net h]
      rcases (installPlan_fail_shape env name out net h).2 with h0 | h0 | ⟨u, h0⟩ <;>
        subst h0 <;>
        simp [countFetch, countDownload, isFetchEv, isDownloadEv, List.countP_cons]
  | write f content =>
      cases hw : writableName (basename f)
      · rw [ppm_install_write_unwritable env st name f content h hw]
        simp [countFetch, countDownload, isFetchEv, isDownloadEv, List.countP_cons]
      · rw [ppm_install_write_writable env st name f content h hw]
        simp [countFetch, countDownload, isFetchEv, isDownloadEv, List.countP_cons]

theorem installPlan_eq_mismatch (env : Env) (name : String) (m : Manifest)
    (info : PluginRecord) (f hx : String) (content : Bytes)
    (hn : name ≠ "")
    (hm : env.fetchManifest = .ok m) (hl : List.lookup name m = some info)
    (hf : info.file = some f) (hs : info.sha256 = some hx)
    (hfe : f ≠ "") (hxe : hx ≠ "")
    (hd : env.download (REPO_URL ++ f) = some content)
    (hh : sha256_hexdigest content ≠ hx) :
    installPlan env name =
      .fail [.fetchingManifest, .downloading name (REPO_URL ++ f),
             .hashMismatch hx (sha256_hexdigest content)]
        [.fetch, .download (REPO_URL ++ f)] := by
  unfold installPlan
  simp [hn, hm, hl, hf, hs, hfe, hxe, hd, hh]

/-! ## Network-event bounds of the individual operations -/

theorem uninstall_net_bound (env : Env) (st : Store) (name : String) :
    countFetch (ppm_uninstall env st name).netOf ≤ 1 ∧
    countDownload (ppm_uninstall env st name).netOf ≤ 1 := by
  by_cases hn : name = ""
  · simp [ppm_uninstall, hn, PyResult.netOf, countFetch, countDownload]
  · cases hr : un_resolve env name with
    | none =>
        simp [ppm_uninstall, hn, hr, PyResult.netOf, countFetch, countDownload,
          isFetchEv, isDownloadEv, List.countP_cons]
    | some pr =>
        obtain ⟨warns, fname⟩ := pr
        simp [ppm_uninstall, hn, hr, PyResult.netOf, countFetch, countDownload,
          isFetchEv, isDownloadEv, List.countP_cons]

theorem list_net_bound (env : Env) (st : Store) (io : Bool) :
    countFetch (ppm_list env st io).net ≤ 1 ∧
    countDownload (ppm_list env st io).net ≤ 1 := by
  cases io with
  | true =>
      cases st <;> simp [ppm_list, countFetch, countDownload]
  | false =>
      rcases henv : env.fetchManifest with m | _ | _
      · by_cases hm : m.isEmpty = true <;>
          simp [ppm_list, henv, hm, countFetch, countDownload, isFetchEv,
            isDownloadEv, List.countP_cons]
      · simp [ppm_list, henv, countFetch, countDownload, isFetchEv,
          isDownloadEv, List.countP_cons]
      · simp [ppm_list, henv, countFetch, countDownload, isFetchEv,
          isDownloadEv, List.countP_cons]

theorem search_net_bound (env : Env) (st : Store) (kw : String) :
    countFetch (ppm_search env st kw).net ≤ 1 ∧
    countDownload (ppm_search env st kw).net ≤ 1 := by
  by_cases hk : kw = ""
  · simp [ppm_search, hk, countFetch, countDownload]
  · rcases henv : env.fetchManifest with m | _ | _
    · by_cases hh : (m.filter fun p => searchHit kw p.1 p.2).isEmpty = true <;>
        simp [ppm_search, hk, henv, hh, countFetch, countDownload, isFetchEv,
          isDownloadEv, List.countP_cons]
    · simp [ppm_search, hk, henv, countFetch, countDownload, isFetchEv,
        isDownloadEv, List.countP_cons]
    · simp [ppm_search, hk, henv, countFetch, countDownload, isFetchEv,
        isDownloadEv, List.countP_cons]

theorem updateEach_net_bound (env : Env) (ps : List String) :
    ∀ st, countFetch (updateEach env st ps).2.2 ≤ ps.length ∧
      countDownload (updateEach env st ps).2.2 ≤ ps.length := by
  induction ps with
  | nil => intro st; simp [updateEach, countFetch, countDownload]
  | cons p ps ih =>
      intro st
      have h1 := install_net_bound env st p
      have h2 := ih (ppm_install env st p).st
      simp only [updateEach, countFetch, countDownload, List.countP_append,
        List.length_cons] at h1 h2 ⊢
      omega

theorem update_single_net_bound (env : Env) (st : Store) (name : String)
    (h : name ≠ "--all") :
    countFetch (ppm_update env st name).net ≤ 1 ∧
    countDownload (ppm_update env st name).net ≤ 1 := by
  unfold ppm_update
  by_cases hn : name = ""
  · simp [hn, countFetch, countDownload]
  · rw [if_neg hn, if_neg h]
    exact install_net_bound env st name

theorem update_all_net_bound (env : Env) (st : Store) :
    countFetch (ppm_update env st "--all").net ≤ numInstalled st ∧
    countDownload (ppm_update env st "--all").net ≤ numInstalled st := by
  unfold ppm_update
  rw [if_neg (by decide), if_pos rfl]
  cases st with
  | none => simp [numInstalled, countFetch, countDownload]
  | some files =>
      cases he : (installedStems files).isEmpty
      · simp only [he, Bool.false_eq_true, if_false]
        exact updateEach_net_bound env (installedStems files) (some files)
      · simp [he, numInstalled, countFetch, countDownload]

/-! ## C1 — no unverified content reaches the store -/

/-- C1: during `ppm_install`, (a) when the downloaded bytes' digest differs
from the manifest-declared digest the store is left untouched (and likewise
every earlier failure leaves it untouched, since any store difference
implies a verified write), and (b) any filename whose store contents differ
from the pre-install state is the basename of the record's file and now
holds exactly the downloaded content whose SHA-256 hex digest equals the
declared digest. -/
theorem install_integrity_gate (env : Env) (st : Store) (name : String) :
    (∀ m info f hx content,
        env.fetchManifest = .ok m → List.lookup name m = some info →
        info.file = some f → info.sha256 = some hx →
        env.download (REPO_URL ++ f) = some content →
        sha256_hexdigest content ≠ hx →
        (ppm_install env st name).st = st)
  ∧ (∀ fname, storeLookup (ppm_install env st name).st fname ≠ storeLookup st fname →
      ∃ m info f hx content,
        env.fetchManifest = .ok m ∧ List.lookup name m = some info ∧
        info.file = some f ∧ info.sha256 = some hx ∧
        env.download (REPO_URL ++ f) = some content ∧
        sha256_hexdigest content = hx ∧
        fname = basename f ∧
        storeLookup (ppm_install env st name).st fname = some content) := by
  constructor
  · intro m info f hx content hm hl hf hs hd hne
    cases h : installPlan env name with
    | fail out net => rw [ppm_install_fail env st name out net h]
    | write f0 c0 =>
        obtain ⟨-, m', info', hx', hm', hl', hf', hs', -, -, hd', hh'⟩ :=
          installPlan_write_inv env name f0 c0 h
        rw [hm] at hm'; injection hm' with hmm; subst hmm
        rw [hl] at hl'; injection hl' with hii; subst hii
        rw [hf] at hf'; injection hf' with hff; subst hff
        rw [hs] at hs'; injection hs' with hxx; subst hxx
        rw [hd] at hd'; injection hd' with hcc; subst hcc
        exact absurd hh' hne
  · intro fname hch
    cases h : installPlan env name with
    | fail out net =>
        rw [ppm_install_fail env st name out net h] at hch
        exact absurd rfl hch
    | write f0 c0 =>
        obtain ⟨-, m, info, hx, hm, hl, hf, hs, -, -, hd, hh⟩ :=
          installPlan_write_inv env name f0 c0 h
        cases hw : writableName (basename f0)
        · rw [ppm_install_write_unwritable env st name f0 c0 h hw] at hch
          exact absurd (storeLookup_makedirs st fname) hch
        · rw [ppm_install_write_writable env st name f0 c0 h hw] at hch ⊢
          by_cases hfn : fname = basename f0
          · subst hfn
            exact ⟨m, info, f0, hx, c0, hm, hl, hf, hs, hd, hh, rfl,
              storeWrite_lookup_self _ _ _⟩
          · exfalso
            apply hch
            rw [storeWrite_lookup_ne _ _ _ _ hfn, storeLookup_makedirs]

/-- C1 witness: in a repository whose manifest declares a wrong digest, the
install leaves the (empty) store untouched. -/
theorem install_integrity_gate_witness :
    (ppm_install envBad (some []) "foo").st = some [] :=
  (install_integrity_gate envBad (some []) "foo").1
    [("foo", recBad)] recBad "foo.py" "00" []
    rfl rfl rfl rfl (by decide) (by decide)

/-! ## C2 — the hash comparison is exact, not case-insensitive -/

/-- C2 counterexample: with the manifest digest written in uppercase hex,
the case-insensitive comparison of the spec accepts the empty payload, but
`ppm_install` reports a hash mismatch and writes nothing. -/
theorem install_ci_hash_counterexample :
    specCaseInsensitiveEq (sha256_hexdigest []) upperDigest = true ∧
    envUpper.download (REPO_URL ++ "foo.py") = some [] ∧
    Msg.hashOk ∉ (ppm_install envUpper (some []) "foo").out ∧
    Msg.hashMismatch upperDigest (sha256_hexdigest []) ∈
      (ppm_install envUpper (some []) "foo").out ∧
    (ppm_install envUpper (some []) "foo").st = some [] := by
  refine ⟨by decide, by decide, ?_, ?_, ?_⟩ <;> decide

/-- C2 (amended): `ppm_install` proceeds past verification iff the SHA-256
lowercase hex digest of the downloaded content equals the manifest digest by
exact string comparison; on any difference — including a difference of hex
case only — it reports the mismatch (with both digests) and writes
nothing. -/
theorem install_hash_exact (env : Env) (st : Store) (name : String)
    (m : Manifest) (info : PluginRecord) (f hx : String) (content : Bytes)
    (hn : name ≠ "")
    (hm : env.fetchManifest = .ok m) (hl : List.lookup name m = some info)
    (hf : info.file = some f) (hs : info.sha256 = some hx)
    (hfe : f ≠ "") (hxe : hx ≠ "")
    (hd : env.download (REPO_URL ++ f) = some content) :
    (Msg.hashOk ∈ (ppm_install env st name).out ↔ sha256_hexdigest content = hx)
  ∧ (sha256_hexdigest content ≠ hx →
      (ppm_install env st name).st = st ∧
      Msg.hashMismatch hx (sha256_hexdigest content) ∈ (ppm_install env st name).out) := by
  by_cases hh : sha256_hexdigest content = hx
  · have hw := installPlan_eq_write env name m info f hx content hn hm hl hf hs hfe hxe hd hh
    cases hwr : writableName (basename f)
    · rw [ppm_install_write_unwritable env st name f content hw hwr]
      exact ⟨by simp [hh], fun hc => absurd hh hc⟩
    · rw [ppm_install_write_writable env st name f content hw hwr]
      exact ⟨by simp [hh], fun hc => absurd hh hc⟩
  · have hfail := installPlan_eq_mismatch env name m info f hx content hn hm hl hf hs hfe hxe hd hh
    rw [ppm_install_fail env st name _ _ hfail]
    exact ⟨by simp [hh], fun _ => ⟨rfl, by simp⟩⟩

/-- C2 witness: with the matching lowercase digest, verification passes. -/
theorem install_hash_exact_witness :
    Msg.hashOk ∈ (ppm_install envW (some []) "foo").out :=
  ((install_hash_exact envW (some []) "foo" [("foo", recW)] recW "sub/foo.py"
      emptyDigest [] (by decide) rfl rfl rfl rfl (by decide) (by decide) (by decide)).1).mpr
    (by decide)

/-! ## C3 — the destination is the basename, directly inside the store -/

/-- C3: whenever `ppm_install` reports a successful installation, the
reported path joins the store directory with the basename of the record's
`file` field, that basename contains no path separator and names a plain
file (not `""`, `"."`, `".."`), and the store now holds the downloaded
content under it. -/
theorem install_path_safety (env : Env) (st : Store) (name n p : String)
    (hmem : Msg.installed n p ∈ (ppm_install env st name).out) :
    ∃ m info f content,
      env.fetchManifest = .ok m ∧ List.lookup name m = some info ∧
      info.file = some f ∧
      env.download (REPO_URL ++ f) = some content ∧
      n = name ∧ p = joinPath get_plugins_dir (basename f) ∧
      '/' ∉ (basename f).data ∧ writableName (basename f) = true ∧
      storeLookup (ppm_install env st name).st (basename f) = some content := by
  cases h : installPlan env name with
  | fail out net =>
      rw [ppm_install_fail env st name out net h] at hmem
      exact absurd hmem ((installPlan_fail_shape env name out net h).1.1 n p)
  | write f c =>
      obtain ⟨-, m, info, hx, hm, hl, hf, hs, -, -, hd, hh⟩ :=
        installPlan_write_inv env name f c h
      cases hw : writableName (basename f)
      · rw [ppm_install_write_unwritable env st name f c h hw] at hmem
        simp at hmem
      · rw [ppm_install_write_writable env st name f c h hw] at hmem ⊢
        simp only [List.mem_cons, List.not_mem_nil, or_false] at hmem
        rcases hmem with h1 | h1 | h1 | h1 | h1
        · exact Msg.noConfusion h1
        · exact Msg.noConfusion h1
        · exact Msg.noConfusion h1
        · injection h1 with hn1 hp1
          exact ⟨m, info, f, c, hm, hl, hf, hd, hn1, hp1, basename_no_slash f, hw,
            storeWrite_lookup_self _ _ _⟩
        · exact Msg.noConfusion h1

/-- C3 witness: a record whose `file` is `../../x.py` installs to
`~/plplugins/x.py`, inside the store. -/
theorem install_path_safety_witness :
    ∃ m info f content,
      envTrav.fetchManifest = .ok m ∧ List.lookup "foo" m = some info ∧
      info.file = some f ∧
      envTrav.download (REPO_URL ++ f) = some content ∧
      "foo" = "foo" ∧ "~/plplugins/x.py" = joinPath get_plugins_dir (basename f) ∧
      '/' ∉ (basename f).data ∧ writableName (basename f) = true ∧
      storeLookup (ppm_install envTrav (some []) "foo").st (basename f) = some content :=
  install_path_safety envTrav (some []) "foo" "foo" "~/plplugins/x.py" (by decide)

/-! ## C7 — install is idempotent -/

/-- C7: after a successful install, re-running the same install against the
same repository yields the identical result — the same output, the same
network events, and the very same store (the verified bytes are rewritten
over themselves at the same path), so the second run also succeeds. -/
theorem install_idempotent (env : Env) (st : Store) (name : String)
    (h : ∃ n p, Msg.installed n p ∈ (ppm_install env st name).out) :
    ppm_install env (ppm_install env st name).st name = ppm_install env st name := by
  obtain ⟨n, p, hmem⟩ := h
  cases hpl : installPlan env name with
  | fail out net =>
      rw [ppm_install_fail env st name out net hpl] at hmem
      exact absurd hmem ((installPlan_fail_shape env name out net hpl).1.1 n p)
  | write f c =>
      cases hw : writableName (basename f)
      · rw [ppm_install_write_unwritable env st name f c hpl hw] at hmem
        simp at hmem
      · rw [ppm_install_write_writable env st name f c hpl hw,
            ppm_install_write_writable env
              (storeWrite (makedirsStore st) (basename f) c) name f c hpl hw]
        cases st <;>
          simp [makedirsStore, storeWrite, Option.getD, writeFs_idem]

/-- C7 witness: installing `foo` twice from the same repository over an
initially empty store returns identical results. -/
theorem install_idempotent_witness :
    ppm_install envW (ppm_install envW (some []) "foo").st "foo" =
      ppm_install envW (some []) "foo" :=
  install_idempotent envW (some []) "foo"
    ⟨"foo", joinPath get_plugins_dir "foo.py", by decide⟩

/-! ## C4 — uninstall filename resolution and the not-installed path -/

/-- C4: for a non-empty plugin name, `ppm_uninstall` resolves the target
filename from the manifest record's basename when the fetch succeeds and
the name is present (with a `file` field), falls back to `name + ".py"`
when the fetch or parse fails or the name is absent (then with a warning),
and whenever the resolved path does not exist under the store it reports
not-installed and leaves the store untouched. -/
theorem uninstall_resolution (env : Env) (st : Store) (name : String)
    (hn : name ≠ "") :
    (∀ m info f, env.fetchManifest = .ok m → List.lookup name m = some info →
       info.file = some f → un_resolve env name = some ([], basename f))
  ∧ ((env.fetchManifest = .netError ∨ env.fetchManifest = .parseError) →
       un_resolve env name = some ([], name ++ ".py"))
  ∧ (∀ m, env.fetchManifest = .ok m → List.lookup name m = none →
       un_resolve env name = some ([.warnNotInManifest name], name ++ ".py"))
  ∧ (∀ warns fname, un_resolve env name = some (warns, fname) →
       pathExistsIn st fname = false →
       ppm_uninstall env st name =
         .ok ⟨warns ++ [.errNotInstalled name], st, [.fetch]⟩) := by
  refine ⟨?_, ?_, ?_, ?_⟩
  · intro m info f hm hl hf
    simp [un_resolve, hm, hl, hf]
  · rintro (hm | hm) <;> simp [un_resolve, hm]
  · intro m hm hl
    simp [un_resolve, hm, hl]
  · intro warns fname hres hne
    simp [ppm_uninstall, hn, hres, uninstallTail, hne]

/-- C4 witness: manifest resolution takes the basename of `dir/foo.py`, the
network fallback guesses `foo.py`, and uninstalling against an empty store
reports not-installed without touching it. -/
theorem uninstall_resolution_witness :
    un_resolve env4 "foo" = some ([], basename "dir/foo.py") ∧
    un_resolve envN "foo" = some ([], "foo" ++ ".py") ∧
    ppm_uninstall env4 (some []) "foo" =
      .ok ⟨[] ++ [.errNotInstalled "foo"], some [], [.fetch]⟩ :=
  ⟨(uninstall_resolution env4 (some []) "foo" (by decide)).1 [("foo", rec4)] rec4
      "dir/foo.py" rfl rfl rfl,
   (uninstall_resolution envN (some []) "foo" (by decide)).2.1 (Or.inl rfl),
   (uninstall_resolution env4 (some []) "foo" (by decide)).2.2.2 [] "foo.py"
      (by decide) (by decide)⟩

/-! ## C9 — uninstall raises on a record without a `file` field -/

/-- C9 counterexample: with a manifest record for `foo` that lacks the
`file` field, `ppm_uninstall` escapes with the unhandled `TypeError` of
`os.path.basename(None)` after its single manifest fetch. -/
theorem uninstall_exception_counterexample :
    ppm_uninstall env9 (some []) "foo" = .exn [.fetch] := by decide

/-- C9 (amended): `ppm_uninstall` completes without an unhandled exception
for every repository in which the looked-up record, when present, carries a
`file` field; a record lacking it makes `os.path.basename(None)` raise. -/
theorem uninstall_no_exception (env : Env) (st : Store) (name : String)
    (h : ∀ m info, env.fetchManifest = .ok m → List.lookup name m = some info →
           (info.file).isSome = true) :
    (ppm_uninstall env st name).isOk = true := by
  by_cases hn : name = ""
  · simp [ppm_uninstall, hn, PyResult.isOk]
  · cases hr : un_resolve env name with
    | none =>
        exfalso
        unfold un_resolve at hr
        repeat' split at hr
        any_goals exact Option.noConfusion hr
        rename_i xr mm heqm xo rec1 heql xs heqf
        have hfile := h mm rec1 heqm heql
        rw [heqf] at hfile
        simp at hfile
    | some pr =>
        obtain ⟨warns, fname⟩ := pr
        simp [ppm_uninstall, hn, hr, PyResult.isOk]

/-- C9 witness: a record with a `file` field uninstalls without raising. -/
theorem uninstall_no_exception_witness :
    (ppm_uninstall env4 (some []) "foo").isOk = true :=
  uninstall_no_exception env4 (some []) "foo"
    (by
      intro m info hm hl
      injection hm with hm2
      subst hm2
      rw [show List.lookup "foo" [("foo", rec4)] = some rec4 from rfl] at hl
      injection hl with hl2
      subst hl2
      rfl)

/-! ## C6 — `list -i` over an existing empty store -/

/-- C6 counterexample: against a store directory that exists and is empty,
`ppm_list -i` prints only the header — no plugin names, no network access,
and in particular no no-plugins-installed message. -/
theorem list_empty_dir_counterexample :
    (ppm_list envN (some []) true).out = [Msg.installedHeader] ∧
    Msg.noPluginsInstalledList ∉ (ppm_list envN (some []) true).out ∧
    (ppm_list envN (some []) true).net = [] := by decide

/-- C6 (amended): `ppm_list -i` against an existing empty store directory
lists no plugin names and performs no network access, but prints no
message; the no-plugins-installed message appears exactly when the store
directory does not exist. -/
theorem list_installed_empty (env : Env) :
    ppm_list env (some []) true = ⟨[.installedHeader], some [], []⟩ ∧
    ppm_list env none true = ⟨[.installedHeader, .noPluginsInstalledList], none, []⟩ ∧
    Msg.noPluginsInstalledList ∉ (ppm_list env (some []) true).out := by
  refine ⟨rfl, rfl, ?_⟩
  simp [ppm_list, installedStems]

/-! ## C8 — search reports exactly the case-insensitive substring matches -/

/-- C8: with a fetched manifest, `ppm_search` reports a match line — with
name, version and description (defaulted when absent) — exactly for the
entries whose lowercased name or description contains the lowercased
keyword; when nothing matches, the output is the searching line followed by
the no-matches message, and in no fetched-manifest run does the
fetch-failure message appear. -/
theorem search_characterization (env : Env) (st : Store) (kw : String)
    (m : Manifest) (hkw : kw ≠ "") (hm : env.fetchManifest = .ok m) :
    (∀ n v d, Msg.searchMatch n v d ∈ (ppm_search env st kw).out ↔
       ∃ info, (n, info) ∈ m ∧
         (strContains (lowerStr kw) (lowerStr n) = true ∨
          strContains (lowerStr kw) (lowerStr (info.description.getD "")) = true) ∧
         v = info.version.getD "N/A" ∧ d = info.description.getD "No description")
  ∧ ((∀ p ∈ m, searchHit kw p.1 p.2 = false) →
       (ppm_search env st kw).out = [.searching kw, .noMatches])
  ∧ Msg.errFetchManifest ∉ (ppm_search env st kw).out := by
  have heq : ppm_search env st kw =
      (if (m.filter (fun p => searchHit kw p.1 p.2)).isEmpty then
         ⟨[.searching kw, .noMatches], st, [.fetch]⟩
       else
         ⟨.searching kw ::
            (m.filter (fun p => searchHit kw p.1 p.2)).map (fun p =>
              .searchMatch p.1 (p.2.version.getD "N/A")
                (p.2.description.getD "No description")),
          st, [.fetch]⟩) := by
    unfold ppm_search; rw [if_neg hkw, hm]
  by_cases hfilt : (m.filter (fun p => searchHit kw p.1 p.2)).isEmpty = true
  · rw [heq, if_pos hfilt]
    have hnil : m.filter (fun p => searchHit kw p.1 p.2) = [] :=
      List.isEmpty_iff.mp hfilt
    refine ⟨?_, fun _ => rfl, by simp⟩
    intro n v d
    simp only [List.mem_cons, List.not_mem_nil, or_false]
    constructor
    · rintro (h1 | h1)
      · exact Msg.noConfusion h1
      · exact Msg.noConfusion h1
    · rintro ⟨info, hmem, hhit, hv, hd⟩
      exfalso
      have hin : (n, info) ∈ m.filter (fun p => searchHit kw p.1 p.2) := by
        rw [List.mem_filter]
        exact ⟨hmem, by rcases hhit with h0 | h0 <;> simp [searchHit, h0]⟩
      rw [hnil] at hin
      exact absurd hin (List.not_mem_nil _)
  · rw [heq, if_neg hfilt]
    refine ⟨?_, ?_, ?_⟩
    · intro n v d
      simp only [List.mem_cons]
      constructor
      · rintro (h1 | h1)
        · exact Msg.noConfusion h1
        · rw [List.mem_map] at h1
          obtain ⟨p, hp, hpe⟩ := h1
          obtain ⟨pn, pinfo⟩ := p
          rw [List.mem_filter] at hp
          obtain ⟨hpm, hph⟩ := hp
          injection hpe with e1 e2 e3
          subst e1
          refine ⟨pinfo, hpm, ?_, e2.symm, e3.symm⟩
          simpa [searchHit, Bool.or_eq_true] using hph
      · rintro ⟨info, hmem, hhit, hv, hd⟩
        right
        rw [List.mem_map]
        refine ⟨(n, info), ?_, ?_⟩
        · rw [List.mem_filter]
          exact ⟨hmem, by rcases hhit with h0 | h0 <;> simp [searchHit, h0]⟩
        · rw [hv, hd]
    · intro hall
      exfalso
      apply hfilt
      rw [List.isEmpty_iff]
      exact List.filter_eq_nil_iff.mpr (fun p hp => by simp [hall p hp])
    · simp

/-- C8 witness: Scenario C — searching `calc` against a manifest with one
entry named `calculator` described `advanced calculator` reports exactly
that entry, and no fetch-failure message. -/
theorem search_characterization_witness :
    (Msg.searchMatch "calculator" "1.2" "advanced calculator" ∈
       (ppm_search envC8 none "calc").out) ∧
    Msg.errFetchManifest ∉ (ppm_search envC8 none "calc").out :=
  ⟨((search_characterization envC8 none "calc" [("calculator", recC8)]
       (by decide) rfl).1 "calculator" "1.2" "advanced calculator").mpr
     ⟨recC8, by decide, Or.inl (by decide), rfl, rfl⟩,
   (search_characterization envC8 none "calc" [("calculator", recC8)]
       (by decide) rfl).2.2⟩

/-! ## C10 — only `.py` files are listed and bulk-updated, by stem -/

/-- The `--all` loop header messages identify exactly the names it
re-installs; `ppm_install` itself never emits one. -/
theorem updateEach_mem_updating (env : Env) (ps : List String) (n : String) :
    ∀ st, (Msg.updatingItem n ∈ (updateEach env st ps).1 ↔ n ∈ ps) := by
  induction ps with
  | nil => intro st; simp [updateEach]
  | cons p ps ih =>
      intro st
      show Msg.updatingItem n ∈
          .updatingItem p :: ((ppm_install env st p).out ++
            (updateEach env (ppm_install env st p).st ps).1) ↔ n ∈ p :: ps
      constructor
      · intro h1
        rcases List.mem_cons.mp h1 with h2 | h2
        · injection h2 with h3
          exact List.mem_cons.mpr (Or.inl h3)
        · rcases List.mem_append.mp h2 with h3 | h3
          · exact absurd h3 (updatingItem_not_mem_install env st p n)
          · exact List.mem_cons_of_mem _ ((ih (ppm_install env st p).st).mp h3)
      · intro h1
        rcases List.mem_cons.mp h1 with h2 | h2
        · subst h2
          exact List.mem_cons_self _ _
        · exact List.mem_cons_of_mem _
            (List.mem_append_right _ ((ih (ppm_install env st p).st).mpr h2))

/-- C10: against an existing store directory, `ppm_list -i` reports a name
iff it is the stem of a listed file ending in `.py`, and `ppm_update --all`
re-installs a name iff it is such a stem; files without the `.py` suffix
are never listed nor re-installed. -/
theorem py_enumeration (env : Env) (files : FileMap) :
    (∀ n, Msg.installedItem n ∈ (ppm_list env (some files) true).out ↔
       ∃ f, f ∈ files.map Prod.fst ∧ strEndsWith f ".py" = true ∧ n = splitextStem f)
  ∧ (∀ n, Msg.updatingItem n ∈ (ppm_update env (some files) "--all").out ↔
       ∃ f, f ∈ files.map Prod.fst ∧ strEndsWith f ".py" = true ∧ n = splitextStem f) := by
  have hstem : ∀ n, n ∈ installedStems files ↔
      ∃ f, f ∈ files.map Prod.fst ∧ strEndsWith f ".py" = true ∧ n = splitextStem f := by
    intro n
    constructor
    · intro h
      rw [installedStems, List.mem_map] at h
      obtain ⟨f, hf, hfe⟩ := h
      rw [List.mem_filter] at hf
      exact ⟨f, hf.1, hf.2, hfe.symm⟩
    · rintro ⟨f, h1, h2, rfl⟩
      rw [installedStems, List.mem_map]
      exact ⟨f, List.mem_filter.mpr ⟨h1, h2⟩, rfl⟩
  constructor
  · intro n
    have hout : Msg.installedItem n ∈ (ppm_list env (some files) true).out ↔
        n ∈ installedStems files := by
      simp [ppm_list]
    exact hout.trans (hstem n)
  · intro n
    have heq : ppm_update env (some files) "--all" =
        (if (installedStems files).isEmpty then
           ⟨[.updatingAll, .noPluginsToUpdate], some files, []⟩
         else
           ⟨.updatingAll :: (updateEach env (some files) (installedStems files)).1,
            (updateEach env (some files) (installedStems files)).2.1,
            (updateEach env (some files) (installedStems files)).2.2⟩) := by
      unfold ppm_update
      rw [if_neg (by decide), if_pos rfl]
    rw [heq]
    by_cases he : (installedStems files).isEmpty = true
    · rw [if_pos he]
      have h0 : installedStems files = [] := List.isEmpty_iff.mp he
      constructor
      · intro h1
        simp at h1
      · rintro h1
        exfalso
        have := (hstem n).mpr h1
        rw [h0] at this
        exact absurd this (List.not_mem_nil _)
    · rw [if_neg he]
      have hloop := updateEach_mem_updating env (installedStems files) n (some files)
      constructor
      · intro h1
        simp only [List.mem_cons] at h1
        rcases h1 with h1 | h1
        · exact absurd h1 (by simp)
        · exact (hstem n).mp (hloop.mp h1)
      · intro h1
        exact List.mem_cons_of_mem _ (hloop.mpr ((hstem n).mpr h1))

/-! ## C5 — network operations per dispatched command -/

theorem ppm_command_nil (env : Env) (st : Store) (args : String)
    (hp : pySplit args = []) :
    ppm_command env st args = .ok ⟨ppm_help, st, []⟩ := by
  unfold ppm_command; rw [hp]

theorem ppm_command_cons (env : Env) (st : Store) (args cmd : String)
    (rest : List String) (hp : pySplit args = cmd :: rest) :
    ppm_command env st args =
      (let sub := lowerStr cmd
       if sub = "help" then .ok ⟨ppm_help, st, []⟩
       else if sub = "install" then .ok (ppm_install env st (rest.getD 0 ""))
       else if sub = "uninstall" then ppm_uninstall env st (rest.getD 0 "")
       else if sub = "list" then .ok (ppm_list env st (rest.getD 0 "" == "-i"))
       else if sub = "search" then .ok (ppm_search env st (rest.getD 0 ""))
       else if sub = "update" then .ok (ppm_update env st (rest.getD 0 ""))
       else .ok ⟨.unknownCommand sub :: ppm_help, st, []⟩) := by
  unfold ppm_command; rw [hp]

/-- C5 counterexample: `update --all` over a store with two installed
plugins performs two manifest fetches in one dispatcher call. -/
theorem command_net_counterexample :
    countFetch (ppm_command envN st2 "update --all").netOf = 2 := by decide

/-- C5 (amended): one dispatcher call performs at most one manifest fetch
and at most one content download — except the bulk `update --all` path,
which performs at most one of each per installed plugin (one re-install,
hence one fetch attempt and one download attempt, per scanned `.py`
stem). -/
theorem command_net_bound (env : Env) (st : Store) (args : String) :
    (dispatchesUpdateAll args = false →
       countFetch (ppm_command env st args).netOf ≤ 1 ∧
       countDownload (ppm_command env st args).netOf ≤ 1)
  ∧ (dispatchesUpdateAll args = true →
       countFetch (ppm_command env st args).netOf ≤ numInstalled st ∧
       countDownload (ppm_command env st args).netOf ≤ numInstalled st) := by
  cases hp : pySplit args with
  | nil =>
      rw [ppm_command_nil env st args hp]
      have hd0 : dispatchesUpdateAll args = false := by
        unfold dispatchesUpdateAll; rw [hp]
      rw [hd0]
      exact ⟨fun _ => by simp [PyResult.netOf, countFetch, countDownload],
        fun h0 => Bool.noConfusion h0⟩
  | cons cmd rest =>
      rw [ppm_command_cons env st args cmd rest hp]
      have hd1 : dispatchesUpdateAll args =
          (lowerStr cmd == "update" && rest.getD 0 "" == "--all") := by
        unfold dispatchesUpdateAll; rw [hp]
      by_cases h1 : lowerStr cmd = "help"
      · have hdf : dispatchesUpdateAll args = false := by rw [hd1, h1]; rfl
        rw [hdf]
        refine ⟨fun _ => ?_, fun h0 => Bool.noConfusion h0⟩
        simp [h1, PyResult.netOf, countFetch, countDownload]
      by_cases h2 : lowerStr cmd = "install"
      · have hdf : dispatchesUpdateAll args = false := by rw [hd1, h2]; rfl
        rw [hdf]
        refine ⟨fun _ => ?_, fun h0 => Bool.noConfusion h0⟩
        simpa [h2, h1, PyResult.netOf] using install_net_bound env st (rest.getD 0 "")
      by_cases h3 : lowerStr cmd = "uninstall"
      · have hdf : dispatchesUpdateAll args = false := by rw [hd1, h3]; rfl
        rw [hdf]
        refine ⟨fun _ => ?_, fun h0 => Bool.noConfusion h0⟩
        simpa [h3, h1, h2] using uninstall_net_bound env st (rest.getD 0 "")
      by_cases h4 : lowerStr cmd = "list"
      · have hdf : dispatchesUpdateAll args = false := by rw [hd1, h4]; rfl
        rw [hdf]
        refine ⟨fun _ => ?_, fun h0 => Bool.noConfusion h0⟩
        simpa [h4, h1, h2, h3, PyResult.netOf] using
          list_net_bound env st (rest.getD 0 "" == "-i")
      by_cases h5 : lowerStr cmd = "search"
      · have hdf : dispatchesUpdateAll args = false := by rw [hd1, h5]; rfl
        rw [hdf]
        refine ⟨fun _ => ?_, fun h0 => Bool.noConfusion h0⟩
        simpa [h5, h1, h2, h3, h4, PyResult.netOf] using
          search_net_bound env st (rest.getD 0 "")
      by_cases h6 : lowerStr cmd = "update"
      · by_cases ha : rest.getD 0 "" = "--all"
        · have hdt : dispatchesUpdateAll args = true := by rw [hd1, h6, ha]; rfl
          rw [hdt]
          refine ⟨fun h0 => Bool.noConfusion h0, fun _ => ?_⟩
          rw [ha]
          simpa [h6, h1, h2, h3, h4, h5, PyResult.netOf] using
            update_all_net_bound env st
        · have hbe : (rest.getD 0 "" == "--all") = false := beq_eq_false_iff_ne.mpr ha
          have hdf : dispatchesUpdateAll args = false := by rw [hd1, h6, hbe]; rfl
          rw [hdf]
          refine ⟨fun _ => ?_, fun h0 => Bool.noConfusion h0⟩
          simpa [h6, h1, h2, h3, h4, h5, PyResult.netOf] using
            update_single_net_bound env st (rest.getD 0 "") ha
      · have hbe : (lowerStr cmd == "update") = false := beq_eq_false_iff_ne.mpr h6
        have hdf : dispatchesUpdateAll args = false := by rw [hd1, hbe]; rfl
        rw [hdf]
        refine ⟨fun _ => ?_, fun h0 => Bool.noConfusion h0⟩
        simp [h1, h2, h3, h4, h5, h6, PyResult.netOf, countFetch, countDownload]

/-- C5 witness: a single install performs at most one fetch and one
download, and `update --all` over the two-plugin store stays within one
fetch and one download per installed plugin. -/
theorem command_net_bound_witness :
    (countFetch (ppm_command envN st2 "install foo").netOf ≤ 1 ∧
     countDownload (ppm_command envN st2 "install foo").netOf ≤ 1) ∧
    (countFetch (ppm_command envN st2 "update --all").netOf ≤ numInstalled st2 ∧
     countDownload (ppm_command envN st2 "update --all").netOf ≤ numInstalled st2) :=
  ⟨(command_net_bound envN st2 "install foo").1 (by decide),
   (command_net_bound envN st2 "update --all").2 (by decide)⟩

end PPM
